import Mathlib

/-!
Verification development for the okanjo-app-mongo data-access layer.

The development shallowly embeds the two source modules:

* `MongoService.js` — identifier codec (`getComparableId`, `getObjectId`,
  `getPublicId`, `getEnvironmentIdPrefix`), connection registry
  (`connect`, `getHealthStatus`, connection event handlers);
* `CrudService.js` — conceal-aware query composition (`_buildQuery`),
  retrieval (`_retrieve`), bounded-retry creation (`_createWithRetry`),
  update plumbing (`_applyUpdates`, `_update`, `_delete`).

JavaScript strings are modelled as `List Char`.  The external `base-id`
base-58 codec and the mongoose/bson `ObjectId` primitives are not part of
this repository; they are modelled from the specification's description of
their interfaces (12-byte identifiers, big-number base-58 conversion over
the standard 58-character alphabet, 24-hex-character canonical form).  The
model is checked below against the concrete encode/decode vector that the
repository's own test suite uses (`5671948e910d4a7a26790192` ↔
`2dcagW31wsvM2hkoB`).
-/

/-- Strings of the JavaScript source are modelled as lists of characters. -/
abbrev Str := List Char

/-! ## Hexadecimal digits and fixed-width hexadecimal rendering -/

/-- Lower- or upper-case hexadecimal digits, as accepted for a canonical
24-character identifier string. -/
def hexDigits : List Char := "0123456789abcdefABCDEF".toList

/-- Whether a character is a hexadecimal digit. -/
def isHexDigit (c : Char) : Bool := hexDigits.contains c

/-- Lower-case hexadecimal digit characters, most significant value last. -/
def lowerHexChars : List Char := "0123456789abcdef".toList

/-- Numeric value of a hexadecimal digit (`0` for non-digits), read off
its position among the lower-case digits. -/
def hexVal (c : Char) : Nat :=
  if lowerHexChars.indexOf c.toLower < 16
  then lowerHexChars.indexOf c.toLower else 0

/-- Character for a hexadecimal digit value (lower case). -/
def hexChar (d : Nat) : Char := lowerHexChars.getD d '0'

/-- Value of a big-endian hexadecimal digit string. -/
def hexListToNat (s : Str) : Nat := s.foldl (fun a c => a * 16 + hexVal c) 0

/-- Fixed-width big-endian lower-case hexadecimal rendering of a number
(the value is taken modulo `16 ^ width`). -/
def natToHexBE : Nat → Nat → Str
  | 0, _ => []
  | w + 1, n => natToHexBE w (n / 16) ++ [hexChar (n % 16)]

/-- Little-endian base-`b` digits computed with explicit fuel, so that the
definition is structurally recursive and kernel-computable. -/
def digitsLE (b : Nat) : Nat → Nat → List Nat
  | 0, _ => []
  | fuel + 1, n => if n = 0 then [] else n % b :: digitsLE b fuel (n / b)

theorem digitsLE_eq_digits {b : Nat} (hb : 2 ≤ b) :
    ∀ fuel n, n ≤ fuel → digitsLE b fuel n = Nat.digits b n := by
  intro fuel
  induction fuel with
  | zero => intro n hn; interval_cases n; simp [digitsLE]
  | succ f ih =>
    intro n hn
    by_cases h0 : n = 0
    · simp [digitsLE, h0]
    · have hlt : n / b < n := Nat.div_lt_self (Nat.pos_of_ne_zero h0) (by omega)
      rw [digitsLE, if_neg h0, ih (n / b) (by omega),
        Nat.digits_def' (by omega : 1 < b) (Nat.pos_of_ne_zero h0)]

/-- Number of base-16 digits of `n` (zero digits for `n = 0`). -/
def hexLen (n : Nat) : Nat := (digitsLE 16 n n).length

theorem hexLen_le_of_lt {n w : Nat} (h : n < 16 ^ w) : hexLen n ≤ w := by
  rw [hexLen, digitsLE_eq_digits (by omega) n n le_rfl]
  by_cases h0 : n = 0
  · simp [h0]
  · rw [Nat.digits_len 16 n (by omega) h0]
    have := Nat.log_lt_of_lt_pow h0 h
    omega

/-! ## Base-58 codec

Modelled from the spec: the external `base-id` library's `base58` codec
converts between the hexadecimal form of a big number and its base-58
rendering over the standard alphabet
`123456789ABCDEFGHJKLMNPQRSTUVWXYZabcdefghijkmnopqrstuvwxyz`
(most significant digit first).  Zero is rendered as the single digit `1`.
The spec states that decoding a payload yields the 12 bytes of the
canonical identifier as lower-cased hexadecimal, so decoded values are
padded to at least 24 hexadecimal digits. -/

/-- Base-58 alphabet used by the external codec. -/
def base58Alphabet : List Char :=
  "123456789ABCDEFGHJKLMNPQRSTUVWXYZabcdefghijkmnopqrstuvwxyz".toList

/-- Character for a base-58 digit value. -/
def base58Char (d : Nat) : Char := base58Alphabet.getD d '1'

/-- Value of a base-58 digit character (out-of-alphabet characters map to
the alphabet length, as a list index search would produce). -/
def base58Val (c : Char) : Nat := base58Alphabet.indexOf c

/-- Base-58 rendering of a number, most significant digit first. -/
def natToBase58 (n : Nat) : Str :=
  if n = 0 then ['1'] else ((digitsLE 58 n n).map base58Char).reverse

/-- Value of a big-endian base-58 digit string. -/
def base58ToNat (s : Str) : Nat := s.foldl (fun a c => a * 58 + base58Val c) 0

/-- Decoded hexadecimal form of a base-58 payload: the decoded number,
rendered as lower-case hexadecimal padded to at least 24 digits
(12 bytes, per the spec's description of canonical identifiers). -/
def base58DecodeHex (s : Str) : Str :=
  natToHexBE (max 24 (hexLen (base58ToNat s))) (base58ToNat s)

theorem base58Val_base58Char {d : Nat} (hd : d < 58) :
    base58Val (base58Char d) = d := by
  have h : ∀ e, e < 58 → base58Val (base58Char e) = e := by decide
  exact h d hd

theorem foldl_base58_reverse_map (l : List Nat) (hl : ∀ d ∈ l, d < 58) :
    base58ToNat ((l.map base58Char).reverse) = Nat.ofDigits 58 l := by
  induction l with
  | nil => rfl
  | cons d t ih =>
    have hd : d < 58 := hl d (by simp)
    have ht : ∀ x ∈ t, x < 58 := fun x hx => hl x (by simp [hx])
    simp only [List.map_cons, List.reverse_cons, base58ToNat, List.foldl_append,
      List.foldl_cons, List.foldl_nil, Nat.ofDigits_cons]
    rw [← base58ToNat]
    rw [ih ht, base58Val_base58Char hd]
    ring

/-- Round trip of the modelled base-58 codec on numbers. -/
theorem base58ToNat_natToBase58 (n : Nat) : base58ToNat (natToBase58 n) = n := by
  by_cases h0 : n = 0
  · subst h0; decide
  · rw [natToBase58, if_neg h0, digitsLE_eq_digits (by omega) n n le_rfl,
      foldl_base58_reverse_map _ (fun d hd => Nat.digits_lt_base (by omega) hd),
      Nat.ofDigits_digits]

theorem natToBase58_ne_nil (n : Nat) : natToBase58 n ≠ [] := by
  by_cases h0 : n = 0
  · subst h0; decide
  · rw [natToBase58, if_neg h0]
    simp only [ne_eq, List.reverse_eq_nil_iff, List.map_eq_nil_iff]
    rw [digitsLE_eq_digits (by omega) n n le_rfl]
    exact Nat.digits_ne_nil_iff_ne_zero.mpr h0

theorem base58Char_ne_underscore (d : Nat) : base58Char d ≠ '_' := by
  by_cases hd : d < 58
  · have h : ∀ e, e < 58 → base58Char e ≠ '_' := by decide
    exact h d hd
  · show base58Alphabet.getD d '1' ≠ '_'
    rw [List.getD_eq_default]
    · decide
    · have hlen : base58Alphabet.length = 58 := by decide
      omega

theorem natToBase58_no_underscore (n : Nat) :
    ∀ c ∈ natToBase58 n, c ≠ '_' := by
  intro c hc
  by_cases h0 : n = 0
  · subst h0; simp [natToBase58] at hc; subst hc; decide
  · rw [natToBase58, if_neg h0] at hc
    rw [List.mem_reverse, List.mem_map] at hc
    obtain ⟨d, _, rfl⟩ := hc
    exact base58Char_ne_underscore d

theorem mem_hexDigits_of_isHexDigit {c : Char} (h : isHexDigit c = true) :
    c ∈ hexDigits := by
  simpa [isHexDigit] using h

theorem hexVal_lt_16 (c : Char) : hexVal c < 16 := by
  rw [hexVal]
  split_ifs with h
  · exact h
  · omega

theorem hexChar_hexVal {c : Char} (h : isHexDigit c = true) :
    hexChar (hexVal c) = c.toLower := by
  have hall : ∀ d ∈ hexDigits, hexChar (hexVal d) = d.toLower := by decide
  exact hall c (mem_hexDigits_of_isHexDigit h)

theorem hexListToNat_append (l : Str) (c : Char) :
    hexListToNat (l ++ [c]) = hexListToNat l * 16 + hexVal c := by
  simp [hexListToNat, List.foldl_append]

theorem hexListToNat_lt (l : Str) : hexListToNat l < 16 ^ l.length := by
  induction l using List.reverseRecOn with
  | nil => decide
  | append_singleton t c ih =>
    rw [hexListToNat_append]
    have hv : hexVal c < 16 := hexVal_lt_16 c
    have : 16 ^ (t ++ [c]).length = 16 ^ t.length * 16 := by
      simp [List.length_append, pow_succ]
    rw [this]
    omega

/-- Rendering the value of a hexadecimal string back at its own width
recovers the string, lower-cased. -/
theorem natToHexBE_hexListToNat (l : Str) (h : l.all isHexDigit = true) :
    natToHexBE l.length (hexListToNat l) = l.map Char.toLower := by
  induction l using List.reverseRecOn with
  | nil => rfl
  | append_singleton t c ih =>
    have hall : t.all isHexDigit = true := by
      simp only [List.all_append] at h; exact (Bool.and_eq_true_iff.mp h).1
    have hc : isHexDigit c = true := by
      simp only [List.all_append, List.all_cons, List.all_nil, Bool.and_true] at h
      exact (Bool.and_eq_true_iff.mp h).2
    have hv : hexVal c < 16 := hexVal_lt_16 c
    rw [hexListToNat_append]
    have hlen : (t ++ [c]).length = t.length + 1 := by simp
    rw [hlen, natToHexBE]
    have hdiv : (hexListToNat t * 16 + hexVal c) / 16 = hexListToNat t := by omega
    have hmod : (hexListToNat t * 16 + hexVal c) % 16 = hexVal c := by omega
    rw [hdiv, hmod, ih hall, hexChar_hexVal hc, List.map_append, List.map_cons,
      List.map_nil]

theorem hexListToNat_natToHexBE (w n : Nat) :
    hexListToNat (natToHexBE w n) = n % 16 ^ w := by
  induction w generalizing n with
  | zero => simp [natToHexBE, hexListToNat, Nat.mod_one]
  | succ v ih =>
    rw [natToHexBE, hexListToNat_append, ih]
    have h16 : ∀ d, d < 16 → hexVal (hexChar d) = d := by decide
    rw [h16 (n % 16) (Nat.mod_lt n (by omega))]
    have hp : (16 : Nat) ^ (v + 1) = 16 * 16 ^ v := by ring
    rw [hp, Nat.mod_mul]
    ring

theorem toLower_hexChar (d : Nat) : (hexChar d).toLower = hexChar d := by
  by_cases hd : d < 16
  · have h : ∀ e, e < 16 → (hexChar e).toLower = hexChar e := by decide
    exact h d hd
  · show (lowerHexChars.getD d '0').toLower = lowerHexChars.getD d '0'
    rw [List.getD_eq_default]
    · decide
    · have hlen : lowerHexChars.length = 16 := by decide
      omega

theorem natToHexBE_map_toLower (w n : Nat) :
    (natToHexBE w n).map Char.toLower = natToHexBE w n := by
  induction w generalizing n with
  | zero => rfl
  | succ v ih => rw [natToHexBE, List.map_append, ih, List.map_cons, List.map_nil,
      toLower_hexChar]

/-- The modelled codec agrees with the encode/decode vector exercised by
the repository's own test suite. -/
theorem base58_repo_test_vector :
    natToBase58 (hexListToNat ("5671948e910d4a7a26790192".toList))
      = "2dcagW31wsvM2hkoB".toList ∧
    base58DecodeHex ("2dcagW31wsvM2hkoB".toList)
      = "5671948e910d4a7a26790192".toList := by
  constructor <;> decide

/-! ## Identifier pattern

Embedding of `MongoService._identifierParser`, the regular expression
`/^([a-z]+)_([a-z_]*?)_?([^_]+)$/i` together with its `exec` backtracking
semantics, as a function returning the three capture groups.

Derivation of the semantics used here:

* group 1 (`[a-z]+`, greedy, followed by a literal `_`): since the group
  can only consume ASCII letters and must be followed by `_`, the only
  viable capture is the maximal leading run of letters, and the match
  fails unless that run is non-empty and followed by `_`;
* groups 2 and 3 over the remaining tail: the tail must decompose as
  `M ++ U ++ P` with `M ∈ (letter | _)*` (lazy), `U ∈ ε | _` and `P`
  non-empty and underscore-free, reaching the end of the string.  As `P`
  must be underscore-free and end at `$`, the lazy preference for the
  shortest `M` puts the split at the last underscore of the tail when the
  tail contains one (and the match fails unless everything before that
  underscore consists of letters and underscores), and at the very start
  otherwise. -/

/-- Whether a character is an ASCII letter (the regex is case-insensitive). -/
def isAsciiLetter (c : Char) : Bool := c.isAlpha

/-- Splits a list around its last underscore: returns the parts before and
after it, or `none` when the list has no underscore. -/
def splitLastUnderscore : Str → Option (Str × Str)
  | [] => none
  | c :: rest =>
    match splitLastUnderscore rest with
    | some (m, p) => some (c :: m, p)
    | none => if c = '_' then some ([], rest) else none

/-- Capture groups of `MongoService._identifierParser.exec`, or `none` when
the pattern does not match.  Group 1 is the object prefix, group 2 the meta
(environment) part, group 3 the payload. -/
def identifierParserExec (s : Str) : Option (Str × Str × Str) :=
  let letters := s.takeWhile isAsciiLetter
  if letters = [] then none
  else
    match s.drop letters.length with
    | '_' :: tail =>
      match splitLastUnderscore tail with
      | some (m, p) =>
        if m.all (fun c => isAsciiLetter c || c = '_') && !p.isEmpty
        then some (letters, m, p) else none
      | none => if !tail.isEmpty then some (letters, [], tail) else none
    | _ => none

theorem splitLastUnderscore_of_no_underscore (l : Str)
    (h : ∀ c ∈ l, c ≠ '_') : splitLastUnderscore l = none := by
  induction l with
  | nil => rfl
  | cons c rest ih =>
    rw [splitLastUnderscore, ih (fun d hd => h d (by simp [hd])),
      if_neg (h c (by simp))]

theorem splitLastUnderscore_append (m p : Str) (hp : ∀ c ∈ p, c ≠ '_') :
    splitLastUnderscore (m ++ '_' :: p) = some (m, p) := by
  induction m with
  | nil => simp [splitLastUnderscore, splitLastUnderscore_of_no_underscore p hp]
  | cons c rest ih => simp [splitLastUnderscore, ih]

theorem takeWhile_append_cons {p : Char → Bool} (l : Str) (c : Char) (r : Str)
    (hl : ∀ x ∈ l, p x = true) (hc : p c = false) :
    (l ++ c :: r).takeWhile p = l := by
  induction l with
  | nil => simp [List.takeWhile_cons, hc]
  | cons x t ih =>
    have hx : p x = true := hl x (by simp)
    rw [List.cons_append, List.takeWhile_cons_of_pos hx,
      ih (fun y hy => hl y (by simp [hy]))]

/-- A token of the form `pfx_payload` (payload non-empty and without
underscores, pfx a non-empty run of letters) parses with an empty meta
group. -/
theorem identifierParserExec_no_meta (pfx payload : Str)
    (hpfx : pfx ≠ [] ∧ ∀ c ∈ pfx, isAsciiLetter c = true)
    (hpay : payload ≠ [] ∧ ∀ c ∈ payload, c ≠ '_') :
    identifierParserExec (pfx ++ '_' :: payload) = some (pfx, [], payload) := by
  obtain ⟨hne, hletters⟩ := hpfx
  obtain ⟨hpne, hpus⟩ := hpay
  have htake : (pfx ++ '_' :: payload).takeWhile isAsciiLetter = pfx :=
    takeWhile_append_cons pfx '_' payload hletters (by decide)
  rw [identifierParserExec]
  simp only [htake, if_neg hne, List.drop_left]
  rw [splitLastUnderscore_of_no_underscore payload hpus]
  simp [List.isEmpty_iff, hpne]

/-- A token of the form `pfx_meta_payload` (meta consisting of letters and
underscores) parses into the three indicated groups. -/
theorem identifierParserExec_with_meta (pfx meta payload : Str)
    (hpfx : pfx ≠ [] ∧ ∀ c ∈ pfx, isAsciiLetter c = true)
    (hmeta : ∀ c ∈ meta, (isAsciiLetter c || c = '_') = true)
    (hpay : payload ≠ [] ∧ ∀ c ∈ payload, c ≠ '_') :
    identifierParserExec (pfx ++ '_' :: (meta ++ '_' :: payload))
      = some (pfx, meta, payload) := by
  obtain ⟨hne, hletters⟩ := hpfx
  obtain ⟨hpne, hpus⟩ := hpay
  have htake : (pfx ++ '_' :: (meta ++ '_' :: payload)).takeWhile isAsciiLetter
      = pfx :=
    takeWhile_append_cons pfx '_' (meta ++ '_' :: payload) hletters (by decide)
  have hcond : meta.all (fun c => isAsciiLetter c || c = '_') = true := by
    rw [List.all_eq_true]; exact hmeta
  rw [identifierParserExec]
  simp only [htake, if_neg hne, List.drop_left]
  rw [splitLastUnderscore_append meta payload hpus]
  simp [hcond, List.isEmpty_iff, hpne]

/-! ## MongoService identifier codec

Embedding of `MongoService.getEnvironmentIdPrefix`, `getPublicId`,
`getComparableId` and `getObjectId`.  A JavaScript value reaching these
functions is modelled by `Mixed`; an `ObjectId` instance carries its
12-byte value as a natural number below `2 ^ 96`, and its `toString` form
is the 24-character lower-case hexadecimal rendering.  The service's
`this.prefixes` and `this.prefixAliases` tables are the `MongoCfg`
structure; the app's `currentEnvironment` is passed explicitly.  The
`app.report` diagnostic side effects are not observable in the modelled
return values and are omitted. -/

/-- JavaScript values that can reach the identifier codec. -/
inductive Mixed where
  | oid (v : Nat)
  | str (s : Str)
  | num (n : Nat)
  | nullV
  | undefV
  | objV
  | arrV
  | funcV
deriving DecidableEq

/-- Prefix and prefix-alias tables of the service (entries are
logical-name/value pairs, mirroring the JavaScript objects). -/
structure MongoCfg where
  prefixes : List (Str × Str)
  prefixAliases : List (Str × Str)
deriving DecidableEq

/-- Embedding of `Object.keys(this.prefixes).find((key) => this.prefixes[key] === prefix)`:
some table entry has the given value. -/
def prefixRegistered (cfg : MongoCfg) (pfx : Str) : Bool :=
  cfg.prefixes.any (fun kv => kv.2 = pfx)

/-- Embedding of the corresponding lookup over `this.prefixAliases`. -/
def aliasRegistered (cfg : MongoCfg) (pfx : Str) : Bool :=
  cfg.prefixAliases.any (fun kv => kv.2 = pfx)

/-- Embedding of `MongoService.getEnvironmentIdPrefix`. -/
def getEnvironmentIdPrefix (env : Str) : Str :=
  if env = "default".toList then "local_".toList
  else if env = "production".toList then []
  else env ++ ['_']

/-- Embedding of `MongoService.getPublicId`: a falsy (empty) object prefix
is replaced by the sentinel `derp` (with a diagnostic report, not
modelled); the environment prefix is appended after an underscore and the
result is `BaseId.base58.encodeWithPrefix(id, prefix)`, i.e. the combined
prefix followed by the base-58 payload. -/
def getPublicId (id : Nat) (pfx : Str) (env : Str) : Str :=
  let p := if pfx = [] then "derp".toList else pfx
  (p ++ '_' :: getEnvironmentIdPrefix env) ++ natToBase58 id

/-- Embedding of `BaseId.base58.decodeWithPrefix`: drop the prefix and
base-58-decode the remainder (modelled from the spec, as `base-id` is an
external collaborator). -/
def base58DecodeWithPfx (s pfx : Str) : Str :=
  base58DecodeHex (s.drop pfx.length)

/-- Embedding of `MongoService.getComparableId`.  `ObjectId` instances are
rendered to their hexadecimal string; strings are matched against the
identifier pattern and decoded when their prefix is registered, otherwise
the two-character legacy alias scheme is tried only when the pattern did
not match; anything else is returned as-is. -/
def getComparableId (cfg : MongoCfg) : Mixed → Mixed
  | .oid v => .str (natToHexBE 24 v)
  | .str s =>
    (match identifierParserExec s with
     | some (pfx, _, payload) =>
       if prefixRegistered cfg pfx
       then .str ((base58DecodeHex payload).map Char.toLower)
       else .str s
     | none =>
       let pfx2 := if 2 ≤ s.length then s.take 2 else []
       if pfx2 ≠ [] ∧ aliasRegistered cfg pfx2 = true
       then .str ((base58DecodeWithPfx s pfx2).map Char.toLower)
       else .str s)
  | m => m

/-- Embedding of `mongoose.Types.ObjectId.isValid` on the values the code
passes to it.  Modelled from the spec: valid inputs are `ObjectId`
instances, 24-hexadecimal-character strings, and numbers. -/
def objectIdValid : Mixed → Bool
  | .oid _ => true
  | .str s => s.length = 24 && s.all isHexDigit
  | .num _ => true
  | _ => false

/-- Embedding of `new ObjectId(value)` on valid values.  Modelled from the
spec: a hexadecimal string denotes its 12-byte value, a small integer is
zero-padded into the 12 bytes. -/
def objectIdOfMixed : Mixed → Nat
  | .oid v => v
  | .str s => hexListToNat s
  | .num n => n
  | _ => 0

/-- Embedding of `MongoService.getObjectId`: `ObjectId` instances pass
through; anything else is made comparable and converted when valid, with
`null` (here `none`) for everything else. -/
def getObjectId (cfg : MongoCfg) (m : Mixed) : Option Nat :=
  match m with
  | .oid v => some v
  | _ =>
    let c := getComparableId cfg m
    if objectIdValid c then some (objectIdOfMixed c) else none

theorem decode_encoded_payload (v : Nat) (hv : v < 16 ^ 24) :
    (base58DecodeHex (natToBase58 v)).map Char.toLower = natToHexBE 24 v := by
  rw [base58DecodeHex, base58ToNat_natToBase58]
  have h24 : max 24 (hexLen v) = 24 := by
    have := hexLen_le_of_lt hv
    omega
  rw [h24, natToHexBE_map_toLower]

theorem envPrefixShape (env : Str)
    (henv : ∀ c ∈ env, (isAsciiLetter c || c = '_') = true) :
    getEnvironmentIdPrefix env = [] ∨
      ∃ m, getEnvironmentIdPrefix env = m ++ ['_'] ∧
        ∀ c ∈ m, (isAsciiLetter c || c = '_') = true := by
  rw [getEnvironmentIdPrefix]
  by_cases hdef : env = "default".toList
  · right
    exact ⟨"local".toList, by rw [if_pos hdef]; decide, by decide⟩
  · by_cases hprod : env = "production".toList
    · left; rw [if_neg hdef, if_pos hprod]
    · right
      exact ⟨env, by rw [if_neg hdef, if_neg hprod], henv⟩

theorem parse_public_token (pfx E payload : Str)
    (hpfx : pfx ≠ [] ∧ ∀ c ∈ pfx, isAsciiLetter c = true)
    (hE : E = [] ∨ ∃ m, E = m ++ ['_'] ∧ ∀ c ∈ m, (isAsciiLetter c || c = '_') = true)
    (hpay : payload ≠ [] ∧ ∀ c ∈ payload, c ≠ '_') :
    ∃ m, identifierParserExec (pfx ++ '_' :: (E ++ payload))
      = some (pfx, m, payload) := by
  rcases hE with hE | ⟨m, hEm, hm⟩
  · exact ⟨[], by rw [hE, List.nil_append]; exact identifierParserExec_no_meta pfx payload hpfx hpay⟩
  · refine ⟨m, ?_⟩
    rw [hEm]
    have : (m ++ ['_']) ++ payload = m ++ '_' :: payload := by simp
    rw [this]
    exact identifierParserExec_with_meta pfx m payload hpfx hm hpay

/-- C1.  Round trip of the public-identifier codec: for a valid 12-byte
canonical identifier (24 hexadecimal characters) and a registered,
non-empty alphabetic prefix, decoding the public identifier produced by
`getPublicId` under the current environment (whose name consists of
letters and underscores) yields the lower-cased hexadecimal form of the
identifier: `getComparableId(getPublicId(id, p))` equals `id` lower-cased. -/
theorem c1_public_id_round_trip (cfg : MongoCfg) (id pfx env : Str)
    (hid : id.length = 24 ∧ id.all isHexDigit = true)
    (hpfx : pfx ≠ [] ∧ ∀ c ∈ pfx, isAsciiLetter c = true)
    (hreg : prefixRegistered cfg pfx = true)
    (henv : ∀ c ∈ env, (isAsciiLetter c || c = '_') = true) :
    getComparableId cfg (.str (getPublicId (hexListToNat id) pfx env))
      = .str (id.map Char.toLower) := by
  obtain ⟨hlen, hhex⟩ := hid
  have hv : hexListToNat id < 16 ^ 24 := by
    have := hexListToNat_lt id
    rwa [hlen] at this
  have hpay : natToBase58 (hexListToNat id) ≠ [] ∧
      ∀ c ∈ natToBase58 (hexListToNat id), c ≠ '_' :=
    ⟨natToBase58_ne_nil _, natToBase58_no_underscore _⟩
  obtain ⟨m, hparse⟩ :=
    parse_public_token pfx (getEnvironmentIdPrefix env) (natToBase58 (hexListToNat id))
      hpfx (envPrefixShape env henv) hpay
  have htok : getPublicId (hexListToNat id) pfx env
      = pfx ++ '_' :: (getEnvironmentIdPrefix env ++ natToBase58 (hexListToNat id)) := by
    rw [getPublicId]
    simp [if_neg hpfx.1]
  rw [htok, getComparableId, hparse]
  simp only [hreg, if_true]
  rw [decode_encoded_payload _ hv, ← hlen, natToHexBE_hexListToNat id hhex]

/-- C1 witness: the round trip evaluated at the identifier and prefix
table that the repository's test suite uses, in the default environment. -/
theorem c1_public_id_round_trip_witness :
    (("5671948e910d4a7a26790192".toList.length = 24 ∧
        "5671948e910d4a7a26790192".toList.all isHexDigit = true) ∧
      ("dood".toList ≠ [] ∧ ∀ c ∈ "dood".toList, isAsciiLetter c = true) ∧
      prefixRegistered ⟨[("doodad".toList, "dood".toList)],
        [("doodad".toList, "DD".toList)]⟩ "dood".toList = true ∧
      (∀ c ∈ "default".toList, (isAsciiLetter c || c = '_') = true)) ∧
    getComparableId ⟨[("doodad".toList, "dood".toList)],
        [("doodad".toList, "DD".toList)]⟩
      (.str (getPublicId (hexListToNat "5671948e910d4a7a26790192".toList)
        "dood".toList "default".toList))
      = .str ("5671948e910d4a7a26790192".toList.map Char.toLower) :=
  ⟨⟨⟨by decide, by decide⟩, ⟨by decide, by decide⟩, by decide, by decide⟩,
    c1_public_id_round_trip _ _ _ _ ⟨by decide, by decide⟩ ⟨by decide, by decide⟩
      (by decide) (by decide)⟩

/-- C5 counterexample.  With no registered current prefixes and the
two-character alias `a_` registered, the token `a_b` matches the
identifier pattern (prefix `a`, unregistered), so `getComparableId`
returns it unchanged without ever consulting the alias table — although
the claim's reading (prefix not registered implies legacy fallback) would
require the alias decode, whose result differs from the input. -/
theorem c5_counterexample :
    prefixRegistered ⟨[], [("x".toList, "a_".toList)]⟩ "a".toList = false ∧
    identifierParserExec "a_b".toList
      = some ("a".toList, [], "b".toList) ∧
    aliasRegistered ⟨[], [("x".toList, "a_".toList)]⟩ "a_".toList = true ∧
    getComparableId ⟨[], [("x".toList, "a_".toList)]⟩ (.str "a_b".toList)
      = .str "a_b".toList ∧
    Mixed.str ((base58DecodeWithPfx "a_b".toList "a_".toList).map Char.toLower)
      ≠ .str "a_b".toList := by
  refine ⟨by decide, by decide, by decide, by decide, by decide⟩

/-- C5 (amended).  The legacy two-character fallback applies exactly to
strings that fail the identifier pattern: for such a string with at least
two characters whose first two characters are a registered alias, decoding
uses the alias scheme; for such a string whose first two characters are
not a registered alias (or that is shorter than two characters), the input
is returned unchanged; and a string that matches the pattern with an
unregistered prefix is also returned unchanged, without consulting the
alias table. -/
theorem c5_legacy_fallback (cfg : MongoCfg) (s : Str) :
    (identifierParserExec s = none →
      ((2 ≤ s.length → aliasRegistered cfg (s.take 2) = true →
          getComparableId cfg (.str s)
            = .str ((base58DecodeWithPfx s (s.take 2)).map Char.toLower)) ∧
       (aliasRegistered cfg (s.take 2) = false ∨ s.length < 2 →
          getComparableId cfg (.str s) = .str s))) ∧
    (∀ pfx m payload, identifierParserExec s = some (pfx, m, payload) →
      prefixRegistered cfg pfx = false →
      getComparableId cfg (.str s) = .str s) := by
  constructor
  · intro hnone
    constructor
    · intro hlen halias
      have hne : s.take 2 ≠ [] := by
        have : s ≠ [] := by
          intro h
          rw [h] at hlen
          simp at hlen
        simp [List.take_eq_nil_iff, this]
      rw [getComparableId]
      simp only [hnone]
      rw [if_pos hlen, if_pos ⟨hne, halias⟩]
    · intro hfail
      rw [getComparableId]
      simp only [hnone]
      rcases hfail with halias | hshort
      · by_cases hlen : 2 ≤ s.length
        · rw [if_pos hlen, if_neg]
          rintro ⟨-, hcontra⟩
          rw [halias] at hcontra
          exact Bool.false_ne_true hcontra
        · rw [if_neg hlen, if_neg]
          rintro ⟨hcontra, -⟩
          exact hcontra rfl
      · have h2 : ¬ (2 ≤ s.length) := by omega
        simp only [if_neg h2]
        rw [if_neg]
        rintro ⟨hcontra, -⟩
        exact hcontra rfl
  · intro pfx m payload hsome hreg
    rw [getComparableId]
    simp only [hsome]
    rw [if_neg]
    rw [hreg]
    exact Bool.false_ne_true

/-- C5 witness: the legacy alias decode evaluated on the repository test
suite's token `DD2dcagW31wsvM2hkoB` (alias `DD`), which fails the
identifier pattern and decodes to the expected canonical hexadecimal. -/
theorem c5_legacy_fallback_witness :
    (identifierParserExec "DD2dcagW31wsvM2hkoB".toList = none ∧
      2 ≤ "DD2dcagW31wsvM2hkoB".toList.length ∧
      aliasRegistered ⟨[("doodad".toList, "dood".toList)],
        [("doodad".toList, "DD".toList)]⟩
        ("DD2dcagW31wsvM2hkoB".toList.take 2) = true) ∧
    getComparableId ⟨[("doodad".toList, "dood".toList)],
        [("doodad".toList, "DD".toList)]⟩
      (.str "DD2dcagW31wsvM2hkoB".toList)
      = .str "5671948e910d4a7a26790192".toList :=
  ⟨⟨by decide, by decide, by decide⟩, by
    have h := ((c5_legacy_fallback ⟨[("doodad".toList, "dood".toList)],
      [("doodad".toList, "DD".toList)]⟩ "DD2dcagW31wsvM2hkoB".toList).1
      (by decide)).1 (by decide) (by decide)
    rw [h]
    decide⟩

theorem natToHexBE_length (w n : Nat) : (natToHexBE w n).length = w := by
  induction w generalizing n with
  | zero => rfl
  | succ v ih => simp [natToHexBE, ih]

theorem isHexDigit_hexChar (d : Nat) : isHexDigit (hexChar d) = true := by
  by_cases hd : d < 16
  · have h : ∀ e, e < 16 → isHexDigit (hexChar e) = true := by decide
    exact h d hd
  · show isHexDigit (lowerHexChars.getD d '0') = true
    rw [List.getD_eq_default]
    · decide
    · have hlen : lowerHexChars.length = 16 := by decide
      omega

theorem natToHexBE_all_hex (w n : Nat) :
    (natToHexBE w n).all isHexDigit = true := by
  induction w generalizing n with
  | zero => rfl
  | succ v ih => simp [natToHexBE, ih, isHexDigit_hexChar]

theorem getObjectId_of_not_oid (cfg : MongoCfg) (m : Mixed)
    (h : ∀ v, m ≠ .oid v) :
    getObjectId cfg m
      = if objectIdValid (getComparableId cfg m)
        then some (objectIdOfMixed (getComparableId cfg m)) else none := by
  cases m with
  | oid v => exact absurd rfl (h v)
  | str s => rfl
  | num n => rfl
  | nullV => rfl
  | undefV => rfl
  | objV => rfl
  | arrV => rfl
  | funcV => rfl

/-- C8.  Behaviour of `getObjectId` as a total function, by input shape:
an `ObjectId` instance passes through unchanged; a 24-hexadecimal-character
string (that neither matches the identifier pattern nor the alias scheme)
converts to its 12-byte value; a decodable prefixed token (registered
prefix, payload decoding below `2 ^ 96`) converts to the decoded value; a
number is accepted (zero-padded into an identifier, per the spec's model of
the external `ObjectId` constructor); the empty string, `null`,
`undefined`, objects, arrays and functions give `null`; and any other
string that resolves to neither scheme and is not 24 hexadecimal
characters gives `null`.  Never raises: in this embedding every case
returns either an identifier value or `none`. -/
theorem c8_get_object_id_total (cfg : MongoCfg) :
    (∀ v, getObjectId cfg (.oid v) = some v) ∧
    (∀ s : Str, s.length = 24 → s.all isHexDigit = true →
      identifierParserExec s = none →
      aliasRegistered cfg (s.take 2) = false →
      getObjectId cfg (.str s) = some (hexListToNat s)) ∧
    (∀ s pfx m payload, identifierParserExec s = some (pfx, m, payload) →
      prefixRegistered cfg pfx = true →
      base58ToNat payload < 16 ^ 24 →
      getObjectId cfg (.str s) = some (base58ToNat payload)) ∧
    (∀ n, getObjectId cfg (.num n) = some n) ∧
    (getObjectId cfg (.str []) = none) ∧
    (getObjectId cfg .nullV = none ∧ getObjectId cfg .undefV = none ∧
      getObjectId cfg .objV = none ∧ getObjectId cfg .arrV = none ∧
      getObjectId cfg .funcV = none) ∧
    (∀ s : Str, identifierParserExec s = none →
      aliasRegistered cfg (s.take 2) = false →
      ¬(s.length = 24 ∧ s.all isHexDigit = true) →
      getObjectId cfg (.str s) = none) := by
  have hunchanged : ∀ s : Str, identifierParserExec s = none →
      aliasRegistered cfg (s.take 2) = false →
      getComparableId cfg (.str s) = .str s := by
    intro s hnone halias
    exact ((c5_legacy_fallback cfg s).1 hnone).2 (Or.inl halias)
  refine ⟨fun v => rfl, ?_, ?_, fun n => rfl, ?_, ⟨rfl, rfl, rfl, rfl, rfl⟩, ?_⟩
  · intro s hlen hhex hnone halias
    rw [getObjectId_of_not_oid cfg _ (fun v h => Mixed.noConfusion h)]
    simp only [hunchanged s hnone halias]
    rw [if_pos]
    · rfl
    · simp [objectIdValid, hlen, hhex]
  · intro s pfx m payload hsome hreg hlt
    have hcomp : getComparableId cfg (.str s)
        = .str (natToHexBE 24 (base58ToNat payload)) := by
      rw [getComparableId]
      simp only [hsome]
      rw [if_pos hreg, base58DecodeHex]
      have h24 : max 24 (hexLen (base58ToNat payload)) = 24 := by
        have := hexLen_le_of_lt hlt
        omega
      rw [h24, natToHexBE_map_toLower]
    rw [getObjectId_of_not_oid cfg _ (fun v h => Mixed.noConfusion h)]
    simp only [hcomp]
    rw [if_pos]
    · show some (hexListToNat (natToHexBE 24 (base58ToNat payload))) = _
      rw [hexListToNat_natToHexBE, Nat.mod_eq_of_lt hlt]
    · simp [objectIdValid, natToHexBE_length, natToHexBE_all_hex]
  · rw [getObjectId_of_not_oid cfg _ (fun v h => Mixed.noConfusion h)]
    have h : getComparableId cfg (.str []) = .str [] := by
      rw [getComparableId]
      simp [identifierParserExec]
    simp only [h]
    rw [if_neg]
    simp [objectIdValid]
  · intro s hnone halias hnot
    rw [getObjectId_of_not_oid cfg _ (fun v h => Mixed.noConfusion h)]
    simp only [hunchanged s hnone halias]
    rw [if_neg]
    simp only [objectIdValid, Bool.and_eq_true, decide_eq_true_eq]
    intro hcontra
    exact hnot ⟨hcontra.1, hcontra.2⟩

/-- C8 witness: the conversion evaluated on inputs from the repository's
test suite — the canonical hexadecimal string, the prefixed token
`dood_test_2dcagW31wsvM2hkoB`, a number, and the invalid strings
`nope` and `XX2dcagW31wsvM2hkoB`. -/
theorem c8_get_object_id_total_witness :
    ("5671948e910d4a7a26790192".toList.length = 24 ∧
      getObjectId ⟨[("doodad".toList, "dood".toList)],
          [("doodad".toList, "DD".toList)]⟩
        (.str "5671948e910d4a7a26790192".toList)
        = some (hexListToNat "5671948e910d4a7a26790192".toList)) ∧
    (identifierParserExec "dood_test_2dcagW31wsvM2hkoB".toList
        = some ("dood".toList, "test".toList, "2dcagW31wsvM2hkoB".toList) ∧
      getObjectId ⟨[("doodad".toList, "dood".toList)],
          [("doodad".toList, "DD".toList)]⟩
        (.str "dood_test_2dcagW31wsvM2hkoB".toList)
        = some (base58ToNat "2dcagW31wsvM2hkoB".toList)) ∧
    getObjectId ⟨[("doodad".toList, "dood".toList)],
        [("doodad".toList, "DD".toList)]⟩ (.num 12345) = some 12345 ∧
    getObjectId ⟨[("doodad".toList, "dood".toList)],
        [("doodad".toList, "DD".toList)]⟩ (.str "nope".toList) = none ∧
    getObjectId ⟨[("doodad".toList, "dood".toList)],
        [("doodad".toList, "DD".toList)]⟩
      (.str "XX2dcagW31wsvM2hkoB".toList) = none := by
  refine ⟨⟨by decide, ?_⟩, ⟨by decide, ?_⟩, ?_, ?_, ?_⟩
  · exact (c8_get_object_id_total _).2.1 _ (by decide) (by decide) (by decide)
      (by decide)
  · exact (c8_get_object_id_total _).2.2.1 "dood_test_2dcagW31wsvM2hkoB".toList
      "dood".toList "test".toList "2dcagW31wsvM2hkoB".toList (by decide)
      (by decide) (by decide)
  · exact (c8_get_object_id_total _).2.2.2.1 12345
  · exact (c8_get_object_id_total _).2.2.2.2.2.2 _ (by decide) (by decide)
      (by decide)
  · exact (c8_get_object_id_total _).2.2.2.2.2.2 _ (by decide) (by decide)
      (by decide)

/-! ## CrudService: configuration, criteria and query composition

Embedding of `CrudService._buildQuery`.  A criteria object is modelled by
its `status` entry (a plain value is an equality predicate, an operator
object a not-equal predicate), its optional `$and` conjunction list and
its remaining field/value entries.  JavaScript truthiness of
`criteria.status` is modelled by `statusTruthy` (an empty-string value is
falsy, operator objects are truthy); a present-but-possibly-empty `$and`
array is always truthy, which `Option` presence captures.  Query matching
follows MongoDB semantics for the fragments the composer builds. -/

/-- Status predicate stored under the `status` key of a criteria object. -/
inductive StatusPred where
  | val (s : Str)
  | ne (s : Str)
deriving DecidableEq

/-- JavaScript truthiness of the value under `criteria.status`. -/
def statusTruthy : Option StatusPred → Bool
  | none => false
  | some (.val s) => !s.isEmpty
  | some (.ne _) => true

/-- One condition of a `$and` conjunction list. -/
inductive Cond where
  | statusIs (p : StatusPred)
  | fieldIs (name : Str) (v : Str)
deriving DecidableEq

/-- Criteria object: `status` entry, `$and` entry, other field entries. -/
structure Criteria where
  status : Option StatusPred
  andC : Option (List Cond)
  fields : List (Str × Str)
deriving DecidableEq

/-- Criteria with no entries (matching every record). -/
def emptyCriteria : Criteria := ⟨none, none, []⟩

/-- Stored record: its `status` field and its other fields. -/
structure StoreRecord where
  status : Str
  fields : List (Str × Str)
deriving DecidableEq

/-- Whether a record status satisfies a status predicate. -/
def StatusPred.holds : StatusPred → Str → Bool
  | .val s, st => st = s
  | .ne s, st => !(st = s)

/-- Whether a record satisfies a single condition. -/
def Cond.holds : Cond → StoreRecord → Bool
  | .statusIs p, r => p.holds r.status
  | .fieldIs n v, r => r.fields.lookup n = some v

/-- Whether a record matches a criteria object (conjunction of its status
entry, its `$and` list and its other field entries). -/
def Criteria.matches (c : Criteria) (r : StoreRecord) : Bool :=
  (match c.status with
   | some p => p.holds r.status
   | none => true) &&
  (match c.andC with
   | some l => l.all (fun cond => cond.holds r)
   | none => true) &&
  c.fields.all (fun nv => r.fields.lookup nv.1 = some nv.2)

/-- Per-service configuration of `CrudService`, with the constructor's
defaults. -/
structure CrudCfg where
  createRetryCount : Int := 3
  modifiableKeys : List Str := []
  deletedStatus : Str := "dead".toList
  concealDeadResources : Bool := true
deriving DecidableEq

/-- Options recognised by `_buildQuery` (`skip`, `take`, `fields`, `sort`,
`conceal`), plus arbitrary passthrough options. -/
structure FindOpts where
  skip : Option Nat := none
  take : Option Nat := none
  fieldsSel : Option Str := none
  sort : Option Str := none
  conceal : Option Bool := none
  extra : List (Str × Str) := []
deriving DecidableEq

/-- Query description produced by `_buildQuery`: the filter plus the
query-shaping directives applied to the builder. -/
structure Query where
  filter : Criteria
  skip : Option Nat
  limit : Option Nat
  selectFields : Option Str
  sortSpec : Option Str
  extraOptions : List (Str × Str)
deriving DecidableEq

/-- Embedding of `CrudService._buildQuery`.  When concealment is active
(service flag on and the `conceal` option not set to `false`): absent
criteria become the dead filter alone; criteria with a falsy `status`
get `status` set to the not-equal-deleted predicate; criteria with a
truthy `status` have it removed and the composite pair
`[their status, dead filter]` appended to the `$and` list (created when
absent).  Absent criteria with concealment off query everything. -/
def buildQuery (svc : CrudCfg) (criteria : Option Criteria)
    (options : FindOpts) : Query :=
  let conceal := options.conceal.getD true
  let filter :=
    if svc.concealDeadResources && conceal then
      let deadFilter : StatusPred := .ne svc.deletedStatus
      match criteria with
      | some c =>
        if statusTruthy c.status then
          match c.status with
          | some sp =>
            { c with
                status := none,
                andC := some (match c.andC with
                  | some l => l ++ [Cond.statusIs sp, Cond.statusIs deadFilter]
                  | none => [Cond.statusIs sp, Cond.statusIs deadFilter]) }
          | none => { c with status := some deadFilter }
        else { c with status := some deadFilter }
      | none => ⟨some deadFilter, none, []⟩
    else criteria.getD emptyCriteria
  ⟨filter, options.skip, options.take, options.fieldsSel, options.sort,
    options.extra⟩

/-- C2 counterexample.  The empty string is a JavaScript-falsy status
value, so `criteria = (status = "")` takes the status-absent branch: the
caller's empty-string equality filter is overwritten by the dead filter
instead of being merged into a conjunction.  A record with status
`active` then matches the built query although its status differs from
the given predicate, contradicting the claimed iff; the status key is
also not removed and no `$and` conjunction is created. -/
theorem c2_counterexample :
    (buildQuery ⟨3, [], "dead".toList, true⟩
        (some ⟨some (.val []), none, []⟩) ⟨none, none, none, none, none, []⟩).filter
      = ⟨some (.ne "dead".toList), none, []⟩ ∧
    (buildQuery ⟨3, [], "dead".toList, true⟩
        (some ⟨some (.val []), none, []⟩)
        ⟨none, none, none, none, none, []⟩).filter.matches
      ⟨"active".toList, []⟩ = true ∧
    (StatusPred.val []).holds "active".toList = false := by
  refine ⟨by decide, by decide, by decide⟩

theorem matches_append_composite (caOpt : Option (List Cond))
    (cf : List (Str × Str)) (sp dead : StatusPred) (r : StoreRecord) :
    Criteria.matches
        ⟨none, some (match caOpt with
          | some l => l ++ [Cond.statusIs sp, Cond.statusIs dead]
          | none => [Cond.statusIs sp, Cond.statusIs dead]), cf⟩ r
      = (Criteria.matches ⟨none, caOpt, cf⟩ r
          && sp.holds r.status && dead.holds r.status) := by
  cases caOpt with
  | none =>
    simp only [Criteria.matches, List.all_cons, List.all_nil, Cond.holds,
      Bool.and_true, Bool.true_and]
    generalize sp.holds r.status = a
    generalize dead.holds r.status = b
    generalize cf.all (fun nv => r.fields.lookup nv.1 = some nv.2) = d
    cases a <;> cases b <;> cases d <;> rfl
  | some l =>
    simp only [Criteria.matches, List.all_append, List.all_cons, List.all_nil,
      Cond.holds, Bool.and_true, Bool.true_and]
    generalize l.all (fun cond => cond.holds r) = a
    generalize sp.holds r.status = b
    generalize dead.holds r.status = d
    generalize cf.all (fun nv => r.fields.lookup nv.1 = some nv.2) = e
    cases a <;> cases b <;> cases d <;> cases e <;> simp

/-- C2 (amended).  For criteria with a truthy (in particular non-empty)
status predicate `S` and concealment enabled, `buildQuery` removes the
status key, appends `[status = S, status ≠ deletedStatus]` to the `$and`
conjunction (creating it with exactly these two conditions when absent),
and the resulting filter matches a record iff the rest of the criteria
matches it, its status satisfies `S`, and its status is not
`deletedStatus`; in particular when `S` is equality with `deletedStatus`
no record matches. -/
theorem c2_conceal_merge (svc : CrudCfg) (c : Criteria) (opts : FindOpts)
    (sp : StatusPred)
    (hsvc : svc.concealDeadResources = true)
    (hopt : opts.conceal ≠ some false)
    (hs : c.status = some sp)
    (htruthy : statusTruthy (some sp) = true) :
    ((buildQuery svc (some c) opts).filter.status = none ∧
      (buildQuery svc (some c) opts).filter.andC
        = some (match c.andC with
          | some l => l ++ [Cond.statusIs sp,
              Cond.statusIs (.ne svc.deletedStatus)]
          | none => [Cond.statusIs sp,
              Cond.statusIs (.ne svc.deletedStatus)])) ∧
    (∀ r, (buildQuery svc (some c) opts).filter.matches r
      = (Criteria.matches ⟨none, c.andC, c.fields⟩ r
          && sp.holds r.status && !(r.status = svc.deletedStatus))) ∧
    (sp = .val svc.deletedStatus →
      ∀ r, (buildQuery svc (some c) opts).filter.matches r = false) := by
  have hconc : opts.conceal.getD true = true := by
    cases h : opts.conceal with
    | none => rfl
    | some b =>
      cases b
      · exact absurd h hopt
      · rfl
  have hfilter : (buildQuery svc (some c) opts).filter
      = ⟨none, some (match c.andC with
          | some l => l ++ [Cond.statusIs sp,
              Cond.statusIs (.ne svc.deletedStatus)]
          | none => [Cond.statusIs sp,
              Cond.statusIs (.ne svc.deletedStatus)]), c.fields⟩ := by
    rw [buildQuery]
    simp only [hconc, hsvc, Bool.true_and, if_true]
    rw [hs]
    simp only [htruthy, if_true]
  refine ⟨⟨by rw [hfilter], by rw [hfilter]⟩, ?_, ?_⟩
  · intro r
    rw [hfilter, matches_append_composite]
    rfl
  · intro hsp r
    rw [hfilter, matches_append_composite]
    subst hsp
    simp only [StatusPred.holds]
    by_cases hst : r.status = svc.deletedStatus
    · simp [hst]
    · simp [hst]

/-- C2 witness: the merge evaluated on the test suite's
`(status = pending, $and = [name cond])` criteria shape against an
active record, a pending record and a dead record. -/
theorem c2_conceal_merge_witness :
    (( ⟨3, [], "dead".toList, true⟩ : CrudCfg).concealDeadResources = true ∧
      (⟨none, none, none, none, none, []⟩ : FindOpts).conceal ≠ some false ∧
      (⟨some (.val "pending".toList),
          some [Cond.fieldIs "name".toList "x".toList], []⟩ : Criteria).status
        = some (.val "pending".toList) ∧
      statusTruthy (some (.val "pending".toList)) = true) ∧
    (buildQuery ⟨3, [], "dead".toList, true⟩
        (some ⟨some (.val "pending".toList),
          some [Cond.fieldIs "name".toList "x".toList], []⟩)
        ⟨none, none, none, none, none, []⟩).filter.andC
      = some [Cond.fieldIs "name".toList "x".toList,
          Cond.statusIs (.val "pending".toList),
          Cond.statusIs (.ne "dead".toList)] ∧
    (buildQuery ⟨3, [], "dead".toList, true⟩
        (some ⟨some (.val "dead".toList), none, []⟩)
        ⟨none, none, none, none, none, []⟩).filter.matches
      ⟨"dead".toList, []⟩ = false := by
  refine ⟨⟨rfl, by simp, rfl, by decide⟩, ?_, ?_⟩
  · exact ((c2_conceal_merge ⟨3, [], "dead".toList, true⟩
      ⟨some (.val "pending".toList),
        some [Cond.fieldIs "name".toList "x".toList], []⟩
      ⟨none, none, none, none, none, []⟩ (.val "pending".toList)
      rfl (by simp) rfl (by decide)).1).2
  · exact (c2_conceal_merge ⟨3, [], "dead".toList, true⟩
      ⟨some (.val "dead".toList), none, []⟩
      ⟨none, none, none, none, none, []⟩ (.val "dead".toList)
      rfl (by simp) rfl (by decide)).2.2 rfl ⟨"dead".toList, []⟩

/-- C4.  Conceal invariant: with the service flag on and the `conceal`
option not set to `false`, criteria without `$and` and without `status`
get their status entry set to the not-equal-deleted predicate (other
entries untouched), and when no criteria is given at all the resulting
filter is exactly the dead filter. -/
theorem c4_conceal_invariant (svc : CrudCfg) (c : Criteria) (opts : FindOpts)
    (hsvc : svc.concealDeadResources = true)
    (hopt : opts.conceal ≠ some false)
    (hs : c.status = none)
    (ha : c.andC = none) :
    (buildQuery svc (some c) opts).filter
      = ⟨some (.ne svc.deletedStatus), none, c.fields⟩ ∧
    (buildQuery svc none opts).filter
      = ⟨some (.ne svc.deletedStatus), none, []⟩ := by
  have hconc : opts.conceal.getD true = true := by
    cases h : opts.conceal with
    | none => rfl
    | some b =>
      cases b
      · exact absurd h hopt
      · rfl
  constructor
  · rw [buildQuery]
    simp only [hconc, hsvc, Bool.true_and, if_true]
    rw [hs]
    simp only [statusTruthy, Bool.false_eq_true, if_false]
    rcases c with ⟨cs, ca, cf⟩
    simp only at hs ha
    rw [hs, ha]
  · rw [buildQuery]
    simp only [hconc, hsvc, Bool.true_and, if_true]

/-- C4 witness: the invariant evaluated at the default service
configuration, a criteria object with one plain field and no options. -/
theorem c4_conceal_invariant_witness :
    (( ⟨3, [], "dead".toList, true⟩ : CrudCfg).concealDeadResources = true ∧
      (⟨none, none, none, none, none, []⟩ : FindOpts).conceal ≠ some false ∧
      (⟨none, none, [("name".toList, "x".toList)]⟩ : Criteria).status = none ∧
      (⟨none, none, [("name".toList, "x".toList)]⟩ : Criteria).andC = none) ∧
    (buildQuery ⟨3, [], "dead".toList, true⟩
        (some ⟨none, none, [("name".toList, "x".toList)]⟩)
        ⟨none, none, none, none, none, []⟩).filter
      = ⟨some (.ne "dead".toList), none, [("name".toList, "x".toList)]⟩ ∧
    (buildQuery ⟨3, [], "dead".toList, true⟩ none
        ⟨none, none, none, none, none, []⟩).filter
      = ⟨some (.ne "dead".toList), none, []⟩ :=
  ⟨⟨rfl, by simp, rfl, rfl⟩,
    (c4_conceal_invariant ⟨3, [], "dead".toList, true⟩
      ⟨none, none, [("name".toList, "x".toList)]⟩
      ⟨none, none, none, none, none, []⟩ rfl (by simp) rfl rfl).1,
    (c4_conceal_invariant ⟨3, [], "dead".toList, true⟩
      ⟨none, none, [("name".toList, "x".toList)]⟩
      ⟨none, none, none, none, none, []⟩ rfl (by simp) rfl rfl).2⟩

/-! ## CrudService: retrieval

Embedding of `CrudService._retrieve`.  The store's `findOne` execution is
an abstract parameter; the embedding records whether a query was issued
and with which criteria (`_id`, plus the `status != deletedStatus` entry
when concealment is on). -/

/-- Criteria of the `findOne` query issued by `_retrieve`. -/
structure RetrieveQuery where
  theId : Nat
  statusNe : Option Str
deriving DecidableEq

/-- Embedding of `CrudService._retrieve`: resolve the identifier; when it
resolves, query the store (with the conceal filter when enabled) and pass
the outcome through; when it does not, resolve `null` without querying.
The second component records the issued query, if any. -/
def crudRetrieve (svc : CrudCfg) (cfg : MongoCfg)
    (findOne : RetrieveQuery → Except Str (Option StoreRecord))
    (id : Mixed) : Except Str (Option StoreRecord) × Option RetrieveQuery :=
  match getObjectId cfg id with
  | some v =>
    let crit : RetrieveQuery :=
      ⟨v, if svc.concealDeadResources then some svc.deletedStatus else none⟩
    (findOne crit, some crit)
  | none => (.ok none, none)

/-- C7.  Retrieval of an unresolvable identifier resolves `null` without
issuing a store query and without error; retrieval of a resolvable
identifier that matches no record resolves `null` rather than an error. -/
theorem c7_retrieve_null (svc : CrudCfg) (cfg : MongoCfg)
    (findOne : RetrieveQuery → Except Str (Option StoreRecord)) :
    (∀ id, getObjectId cfg id = none →
      crudRetrieve svc cfg findOne id = (.ok none, none)) ∧
    (∀ id v, getObjectId cfg id = some v →
      findOne ⟨v, if svc.concealDeadResources
          then some svc.deletedStatus else none⟩ = .ok none →
      (crudRetrieve svc cfg findOne id).1 = .ok none) := by
  constructor
  · intro id h
    rw [crudRetrieve, h]
  · intro id v h hfind
    rw [crudRetrieve, h]
    exact hfind

/-- C7 witness: retrieval of `undefined`, of the unconvertible strings
`nope` and the empty string (no query issued), and of a valid identifier
over an empty store (resolves `null`). -/
theorem c7_retrieve_null_witness :
    (crudRetrieve ⟨3, [], "dead".toList, true⟩
        ⟨[("doodad".toList, "dood".toList)], [("doodad".toList, "DD".toList)]⟩
        (fun _ => .ok none) .undefV = (.ok none, none) ∧
      crudRetrieve ⟨3, [], "dead".toList, true⟩
        ⟨[("doodad".toList, "dood".toList)], [("doodad".toList, "DD".toList)]⟩
        (fun _ => .ok none) (.str "nope".toList) = (.ok none, none) ∧
      crudRetrieve ⟨3, [], "dead".toList, true⟩
        ⟨[("doodad".toList, "dood".toList)], [("doodad".toList, "DD".toList)]⟩
        (fun _ => .ok none) (.str []) = (.ok none, none)) ∧
    (crudRetrieve ⟨3, [], "dead".toList, true⟩
        ⟨[("doodad".toList, "dood".toList)], [("doodad".toList, "DD".toList)]⟩
        (fun _ => .ok none) (.oid 5)).1 = .ok none := by
  refine ⟨⟨?_, ?_, ?_⟩, ?_⟩
  · exact (c7_retrieve_null _ _ _).1 .undefV (by decide)
  · exact (c7_retrieve_null _ _ _).1 (.str "nope".toList) (by decide)
  · exact (c7_retrieve_null _ _ _).1 (.str []) (by decide)
  · exact (c7_retrieve_null _ _ _).2 (.oid 5) 5 (by decide) rfl

/-! ## CrudService: updates and soft delete

Embedding of `_applyUpdates`, `_update` and `_delete`.  A persisted
document is an association list from field names to values; a value is a
string or the `updated` timestamp.  `objSet` is JavaScript property
assignment.  `_update(doc, callback)` passes a function (or nothing) as
`data`, which the overload check turns into no data, modelled by `none`;
the current time of `new Date()` is an explicit parameter. -/

/-- Document field values: strings, or the `Date` stored in `updated`. -/
inductive FieldVal where
  | str (s : Str)
  | time (t : Nat)
deriving DecidableEq

/-- JavaScript property assignment `obj[k] = v` on an association list:
replaces the first binding of `k`, or appends one. -/
def objSet {α : Type} (doc : List (Str × α)) (k : Str) (v : α) :
    List (Str × α) :=
  match doc with
  | [] => [(k, v)]
  | (k2, v2) :: rest =>
    if k2 = k then (k, v) :: rest else (k2, v2) :: objSet rest k v

/-- Embedding of `CrudService._applyUpdates`: when given a data object,
copy onto the document each allow-listed key that the data object has. -/
def applyUpdates (svc : CrudCfg) (doc : List (Str × FieldVal))
    (data : Option (List (Str × FieldVal))) : List (Str × FieldVal) :=
  match data with
  | some d =>
    svc.modifiableKeys.foldl
      (fun acc k =>
        match d.lookup k with
        | some v => objSet acc k v
        | none => acc) doc
  | none => doc

/-- Document state that `CrudService._update` saves: allow-listed updates
applied, then the `updated` audit field stamped with the current time. -/
def updatedDoc (svc : CrudCfg) (doc : List (Str × FieldVal))
    (data : Option (List (Str × FieldVal))) (now : Nat) :
    List (Str × FieldVal) :=
  objSet (applyUpdates svc doc data) "updated".toList (.time now)

/-- Embedding of `CrudService._update`: apply updates, stamp `updated`,
persist through the abstract `save`. -/
def crudUpdate (svc : CrudCfg)
    (save : List (Str × FieldVal) → Except Str (List (Str × FieldVal)))
    (doc : List (Str × FieldVal)) (data : Option (List (Str × FieldVal)))
    (now : Nat) : Except Str (List (Str × FieldVal)) :=
  save (updatedDoc svc doc data now)

/-- Embedding of `CrudService._delete`: set `status` to the deleted
status, then delegate to `_update` with no data payload (the callback
argument is not a data object). -/
def crudDelete (svc : CrudCfg)
    (save : List (Str × FieldVal) → Except Str (List (Str × FieldVal)))
    (doc : List (Str × FieldVal)) (now : Nat) :
    Except Str (List (Str × FieldVal)) :=
  crudUpdate svc save (objSet doc "status".toList (.str svc.deletedStatus))
    none now

theorem objSet_lookup_same {α : Type} (doc : List (Str × α)) (k : Str)
    (v : α) : (objSet doc k v).lookup k = some v := by
  induction doc with
  | nil => simp [objSet, List.lookup]
  | cons kv rest ih =>
    rcases kv with ⟨k2, v2⟩
    rw [objSet]
    by_cases h : k2 = k
    · simp [h, List.lookup]
    · simp only [if_neg h, List.lookup]
      have : (k == k2) = false := by
        simp only [beq_eq_false_iff_ne, ne_eq]
        exact fun hc => h hc.symm
      rw [this]
      exact ih

theorem objSet_lookup_other {α : Type} (doc : List (Str × α)) (k k2 : Str)
    (v : α) (h : k2 ≠ k) : (objSet doc k v).lookup k2 = doc.lookup k2 := by
  induction doc with
  | nil =>
    simp only [objSet, List.lookup]
    have : (k2 == k) = false := by simpa using h
    rw [this]
  | cons kv rest ih =>
    rcases kv with ⟨k3, v3⟩
    rw [objSet]
    by_cases hk : k3 = k
    · subst hk
      simp only [List.lookup]
      have hne : (k2 == k3) = false := by simpa using h
      rw [hne]
    · simp only [if_neg hk, List.lookup]
      by_cases he : k2 = k3
      · subst he
        simp
      · have hne : (k2 == k3) = false := by simpa using he
        rw [hne]
        exact ih

/-- C9.  Soft delete is frame-preserving: the document handed to the
store by `_delete` has `status` set to the deleted status and `updated`
stamped with the current time, and every other field unchanged — the
allowlist copy runs on no data and copies nothing.  `_delete` persists
exactly that document. -/
theorem c9_delete_frame (svc : CrudCfg)
    (save : List (Str × FieldVal) → Except Str (List (Str × FieldVal)))
    (doc : List (Str × FieldVal)) (now : Nat) :
    crudDelete svc save doc now
      = save (updatedDoc svc
          (objSet doc "status".toList (.str svc.deletedStatus)) none now) ∧
    (updatedDoc svc (objSet doc "status".toList (.str svc.deletedStatus))
        none now).lookup "status".toList = some (.str svc.deletedStatus) ∧
    (updatedDoc svc (objSet doc "status".toList (.str svc.deletedStatus))
        none now).lookup "updated".toList = some (.time now) ∧
    ∀ k, k ≠ "status".toList → k ≠ "updated".toList →
      (updatedDoc svc (objSet doc "status".toList (.str svc.deletedStatus))
          none now).lookup k = doc.lookup k := by
  refine ⟨rfl, ?_, ?_, ?_⟩
  · rw [updatedDoc, applyUpdates,
      objSet_lookup_other _ _ _ _ (by decide), objSet_lookup_same]
  · rw [updatedDoc, applyUpdates, objSet_lookup_same]
  · intro k hks hku
    rw [updatedDoc, applyUpdates, objSet_lookup_other _ _ _ _ hku,
      objSet_lookup_other _ _ _ _ hks]

/-- C9 witness: soft delete of an active document with a name field keeps
the name, sets `status` to `dead` and stamps `updated`. -/
theorem c9_delete_frame_witness :
    crudDelete ⟨3, [], "dead".toList, true⟩ .ok
        [("status".toList, .str "active".toList),
         ("name".toList, .str "thing one".toList)] 99
      = .ok (updatedDoc ⟨3, [], "dead".toList, true⟩
          (objSet [("status".toList, .str "active".toList),
            ("name".toList, .str "thing one".toList)]
            "status".toList (.str "dead".toList)) none 99) ∧
    (updatedDoc ⟨3, [], "dead".toList, true⟩
        (objSet [("status".toList, .str "active".toList),
          ("name".toList, .str "thing one".toList)]
          "status".toList (.str "dead".toList)) none 99).lookup "name".toList
      = some (.str "thing one".toList) ∧
    ("name".toList ≠ "status".toList ∧ "name".toList ≠ "updated".toList) := by
  refine ⟨(c9_delete_frame ⟨3, [], "dead".toList, true⟩ .ok _ 99).1, ?_, by decide⟩
  rw [(c9_delete_frame ⟨3, [], "dead".toList, true⟩ .ok
    [("status".toList, .str "active".toList),
     ("name".toList, .str "thing one".toList)] 99).2.2.2 "name".toList
    (by decide) (by decide)]
  decide

/-! ## CrudService: bounded-retry creation

Embedding of `CrudService._createWithRetry`.  The store save performed by
`_create` is the abstract `create` parameter, failing with a numeric error
code; a collision is `CrudService._collisionErrorCode`.  The JavaScript
`for (attempt = 0; attempt < this._createRetryCount; attempt++)` loop
performs `max(createRetryCount, 0)` iterations; it is embedded as a
recursion on the remaining iteration count, with the invariant
`attempt + remaining = max(createRetryCount, 0)`, so that the source's
final-attempt test `attempt === this._createRetryCount - 1` is
`remaining = 1`.  When the loop falls through without resolving (zero
iterations), neither `resolve` nor `reject` is ever called on the promise:
`settled = none`.  The outcome records the `objectClosure` calls (with
their attempt numbers, in order), the number of `_create` calls, and the
number of all-attempts-failed collision reports. -/

/-- Mongo duplicate-key error code, `CrudService._collisionErrorCode`. -/
def collisionErrorCode : Nat := 11000

/-- Observable outcome of `_createWithRetry`: how the promise settled
(`none`: it never settles), the attempt numbers passed to the revise
closure, the number of save attempts, and the number of final-collision
reports. -/
structure RetryOutcome (D : Type) where
  settled : Option (Except Nat D)
  reviseCalls : List Nat
  createCalls : Nat
  collisionReports : Nat

/-- Loop body of `_createWithRetry`, by recursion on the remaining
iteration count. -/
def createWithRetryLoop {D : Type} (total : Nat) (create : D → Except Nat D)
    (closure : D → Nat → D) (data : D) :
    Nat → Nat → RetryOutcome D
  | _, 0 => ⟨none, [], 0, 0⟩
  | attempt, r + 1 =>
    match create (closure data attempt) with
    | .ok doc => ⟨some (.ok doc), [attempt], 1, 0⟩
    | .error code =>
      if code = collisionErrorCode then
        if attempt = total - 1 then
          ⟨some (.error code), [attempt], 1, 1⟩
        else
          let rest := createWithRetryLoop total create closure data
            (attempt + 1) r
          ⟨rest.settled, attempt :: rest.reviseCalls, rest.createCalls + 1,
            rest.collisionReports⟩
      else ⟨some (.error code), [attempt], 1, 0⟩

/-- Embedding of `CrudService._createWithRetry`. -/
def createWithRetry {D : Type} (svc : CrudCfg) (create : D → Except Nat D)
    (closure : D → Nat → D) (data : D) : RetryOutcome D :=
  createWithRetryLoop svc.createRetryCount.toNat create closure data 0
    svc.createRetryCount.toNat

theorem createWithRetryLoop_all_collide {D : Type} (total : Nat)
    (create : D → Except Nat D) (closure : D → Nat → D) (data : D)
    (hcollide : ∀ d, create d = .error collisionErrorCode) :
    ∀ r attempt, attempt + r = total → 1 ≤ r →
      createWithRetryLoop total create closure data attempt r
        = ⟨some (.error collisionErrorCode), List.range' attempt r, r, 1⟩ := by
  intro r
  induction r with
  | zero => omega
  | succ q ih =>
    intro attempt htot hr
    rw [createWithRetryLoop, hcollide]
    split
    case h_1 doc hdoc => exact Except.noConfusion hdoc
    case h_2 code hcode =>
    injection hcode with hcodeEq
    subst hcodeEq
    rw [if_pos rfl]
    by_cases hlast : attempt = total - 1
    · have hq : q = 0 := by omega
      subst hq
      rw [if_pos hlast]
      rfl
    · have hq : 1 ≤ q := by omega
      rw [if_neg hlast, ih (attempt + 1) (by omega) hq]
      have hrange : List.range' attempt (q + 1)
          = attempt :: List.range' (attempt + 1) q := rfl
      rw [hrange]

/-- C3.  With a positive retry count and a revise closure whose every
payload collides, `_createWithRetry` calls the closure exactly
`createRetryCount` times with attempt numbers `0 .. createRetryCount - 1`
in order (`List.range`), performs one save per attempt, reports the
collision exactly once (at the final attempt), and rejects with the
collision error. -/
theorem c3_retry_bound {D : Type} (svc : CrudCfg)
    (create : D → Except Nat D) (closure : D → Nat → D) (data : D)
    (hpos : 1 ≤ svc.createRetryCount)
    (hcollide : ∀ d, create d = .error collisionErrorCode) :
    createWithRetry svc create closure data
      = ⟨some (.error collisionErrorCode),
          List.range svc.createRetryCount.toNat,
          svc.createRetryCount.toNat, 1⟩ := by
  rw [createWithRetry,
    createWithRetryLoop_all_collide svc.createRetryCount.toNat create closure
      data hcollide svc.createRetryCount.toNat 0 (by omega) (by omega),
    List.range_eq_range']

/-- C3 witness: the default retry count 3 with an always-colliding store:
revise attempts `[0, 1, 2]`, three saves, one report, collision error. -/
theorem c3_retry_bound_witness :
    (1 : Int) ≤ (⟨3, [], "dead".toList, true⟩ : CrudCfg).createRetryCount ∧
    createWithRetry (D := Nat) ⟨3, [], "dead".toList, true⟩
        (fun _ => .error collisionErrorCode) (fun d a => d + a) 7
      = ⟨some (.error collisionErrorCode), [0, 1, 2], 3, 1⟩ := by
  constructor
  · decide
  · rw [c3_retry_bound ⟨3, [], "dead".toList, true⟩
      (fun _ => .error collisionErrorCode) (fun d a => d + a) 7 (by decide)
      (fun d => rfl)]
    rfl

/-- C10.  With a non-positive configured retry count the loop body never
runs: the revise closure is never called, no save is attempted, and the
promise never settles (neither resolves nor rejects). -/
theorem c10_retry_zero_never_settles {D : Type} (svc : CrudCfg)
    (create : D → Except Nat D) (closure : D → Nat → D) (data : D)
    (hnp : svc.createRetryCount ≤ 0) :
    createWithRetry svc create closure data = ⟨none, [], 0, 0⟩ := by
  rw [createWithRetry, Int.toNat_of_nonpos hnp]
  rfl

/-- C10 witness: retry count 0 and retry count -2, on a store that would
always succeed — the outcome still never settles and never calls the
closure. -/
theorem c10_retry_zero_never_settles_witness :
    ((⟨0, [], "dead".toList, true⟩ : CrudCfg).createRetryCount ≤ 0 ∧
      createWithRetry (D := Nat) ⟨0, [], "dead".toList, true⟩ .ok
        (fun d _ => d + 1) 4 = ⟨none, [], 0, 0⟩) ∧
    ((⟨-2, [], "dead".toList, true⟩ : CrudCfg).createRetryCount ≤ 0 ∧
      createWithRetry (D := Nat) ⟨-2, [], "dead".toList, true⟩ .ok
        (fun d _ => d + 1) 4 = ⟨none, [], 0, 0⟩) :=
  ⟨⟨by decide, c10_retry_zero_never_settles ⟨0, [], "dead".toList, true⟩ .ok
      (fun d _ => d + 1) 4 (by decide)⟩,
    ⟨by decide, c10_retry_zero_never_settles ⟨-2, [], "dead".toList, true⟩ .ok
      (fun d _ => d + 1) 4 (by decide)⟩⟩

/-! ## MongoService: connection registry and health

Embedding of `MongoService.connect`, `getHealthStatus` and the connection
event handlers.  The constructor starts with
`_expectedConnectionReadies = 1` and empty `_dbStates`/`_dbConnections`;
`connect` sets the expected count to the number of configured schemas,
logs the two warning lines when there are none (counted as one warning
here), validates each schema (throwing on a malformed entry, modelled by
`Except.error`), and registers each connection.  Connection state entries
are written only by the open/error event handlers, which emit a
`health_change` notification exactly when the aggregate health flips.
Events can only fire for registered connections, which the reachability
relation `MSReachable` captures. -/

/-- Schema configuration entry `(name, path, uri)`; an empty string models
a missing or falsy key. -/
structure SchemaCfg where
  name : Str
  path : Str
  uri : Str
deriving DecidableEq

/-- Registry state: expected ready count, per-schema health flags,
registered connections, count of no-schema warnings logged, and the
emitted `health_change` values in order. -/
structure MSState where
  expectedConnectionReadies : Nat
  dbStates : List (Str × Bool)
  connections : List Str
  warnings : Nat
  healthEvents : List Bool
deriving DecidableEq

/-- State established by the `MongoService` constructor. -/
def initialMSState : MSState := ⟨1, [], [], 0, []⟩

/-- Embedding of `MongoService.getHealthStatus`: count the ready schema
states and compare with the expected count. -/
def getHealthStatus (s : MSState) : Bool :=
  s.dbStates.countP (fun kv => kv.2) == s.expectedConnectionReadies

/-- Embedding of `MongoService._connectSchema`: registers the connection
(model binding has no observable effect here); the state entry is only
written by the open/error handlers. -/
def connectSchema (s : MSState) (sch : SchemaCfg) : MSState :=
  { s with connections := s.connections ++ [sch.name] }

/-- Validation loop of `MongoService.connect` over the schema list:
a schema without name, path or uri throws. -/
def connectLoop : List SchemaCfg → MSState → Except Unit MSState
  | [], s => .ok s
  | sch :: rest, s =>
    if sch.name = [] ∨ sch.path = [] ∨ sch.uri = []
    then .error ()
    else connectLoop rest (connectSchema s sch)

/-- Embedding of `MongoService.connect`: set the expected ready count to
the schema count, warn when it is zero, then validate and register every
schema. -/
def connect (schemas : List SchemaCfg) (s : MSState) : Except Unit MSState :=
  connectLoop schemas
    { s with
        expectedConnectionReadies := schemas.length,
        warnings := if schemas.length = 0 then s.warnings + 1 else s.warnings }

/-- Embedding of `MongoService._onConnectionOpen`: mark the schema ready
and emit `health_change` when the aggregate health changed. -/
def onConnectionOpen (s : MSState) (n : Str) : MSState :=
  let current := getHealthStatus s
  let s2 := { s with dbStates := objSet s.dbStates n true }
  let newState := getHealthStatus s2
  if newState ≠ current
  then { s2 with healthEvents := s2.healthEvents ++ [newState] }
  else s2

/-- Embedding of `MongoService._onConnectionError`: mark the schema dead
and emit `health_change` when the aggregate health changed (the report
and reconnection timer are not modelled). -/
def onConnectionError (s : MSState) (n : Str) : MSState :=
  let current := getHealthStatus s
  let s2 := { s with dbStates := objSet s.dbStates n false }
  let newState := getHealthStatus s2
  if newState ≠ current
  then { s2 with healthEvents := s2.healthEvents ++ [newState] }
  else s2

/-- States reachable from `s0` through connection events, which mongoose
delivers only for registered connections. -/
inductive MSReachable (s0 : MSState) : MSState → Prop
  | refl : MSReachable s0 s0
  | connOpen (s : MSState) (n : Str) : MSReachable s0 s →
      n ∈ s.connections → MSReachable s0 (onConnectionOpen s n)
  | connError (s : MSState) (n : Str) : MSReachable s0 s →
      n ∈ s.connections → MSReachable s0 (onConnectionError s n)

/-- C6 counterexample.  Connecting with an empty schema list yields a
state whose `getHealthStatus()` is `true` — not `false` as claimed —
because the expected ready count becomes zero and zero connections are
ready; the repository's own test relies on this to proceed with no
schemas configured. -/
theorem c6_counterexample :
    connect [] initialMSState = .ok ⟨0, [], [], 1, []⟩ ∧
    getHealthStatus ⟨0, [], [], 1, []⟩ = true := by
  constructor
  · rfl
  · rfl

/-- C6 (amended).  Connecting with an empty schema list logs the warning
and registers no connection, so no `health_change` notification (in
particular none carrying `true`) is ever emitted in any reachable state —
but `getHealthStatus()` is `true` immediately after `connect()` (the
expected ready count is zero), rather than remaining `false` as claimed. -/
theorem c6_empty_schema_health (s1 : MSState)
    (h : connect [] initialMSState = .ok s1) :
    s1.warnings = 1 ∧ getHealthStatus s1 = true ∧
    ∀ s, MSReachable s1 s → s = s1 ∧ s.healthEvents = [] := by
  have hs1 : s1 = ⟨0, [], [], 1, []⟩ := by
    have : connect [] initialMSState = .ok (⟨0, [], [], 1, []⟩ : MSState) := rfl
    rw [this] at h
    injection h with h2
    exact h2.symm
  subst hs1
  refine ⟨rfl, rfl, ?_⟩
  intro s hreach
  induction hreach with
  | refl => exact ⟨rfl, rfl⟩
  | connOpen s n hr hn ih =>
    rw [ih.1] at hn
    exact absurd hn (List.not_mem_nil n)
  | connError s n hr hn ih =>
    rw [ih.1] at hn
    exact absurd hn (List.not_mem_nil n)

/-- C6 witness: the amended statement applied to the concrete post-connect
state, with reachability instantiated at the state itself. -/
theorem c6_empty_schema_health_witness :
    connect [] initialMSState = .ok ⟨0, [], [], 1, []⟩ ∧
    (⟨0, [], [], 1, []⟩ : MSState).warnings = 1 ∧
    getHealthStatus ⟨0, [], [], 1, []⟩ = true ∧
    ((⟨0, [], [], 1, []⟩ : MSState) = ⟨0, [], [], 1, []⟩ ∧
      (⟨0, [], [], 1, []⟩ : MSState).healthEvents = []) :=
  ⟨rfl,
    (c6_empty_schema_health ⟨0, [], [], 1, []⟩ rfl).1,
    (c6_empty_schema_health ⟨0, [], [], 1, []⟩ rfl).2.1,
    (c6_empty_schema_health ⟨0, [], [], 1, []⟩ rfl).2.2 _ MSReachable.refl⟩
